import Mathlib

/-!
Verification of the delivery-plan optimizer in `TPO.py`.

The program computes a minimum-cost delivery plan: Floyd-Warshall all-pairs
shortest distances over an undirected weighted graph (`floyd_warshall`),
a capacity-bounded partition of package destinations into trips, and an
exhaustive backtracking search over hub-activation subsets
(`calcular_mejor_camino` / `probar_combinaciones`).

Distances and costs are modelled over `ℕ∞` (naturals with `⊤`), matching the
program's exact arithmetic on non-negative weights with `float('inf')`
modelled as `⊤`.  A Python `IndexError` (raised when the route evaluator
indexes into an empty trip) is modelled by `Option`: `none` is a crash.
-/

namespace TPO

/-- A distance matrix, indexed by node ids. -/
abbrev Mat := Nat → Nat → ℕ∞

/-! ## Floyd-Warshall (`floyd_warshall`, TPO.py lines 149-173) -/

/-- One edge assignment `dist[u][v] = peso; dist[v][u] = peso` (lines 162-164). -/
def setEdge (d : Mat) (u v : Nat) (w : ℕ∞) : Mat :=
  fun a b => if (a = u ∧ b = v) ∨ (a = v ∧ b = u) then w else d a b

/-- The initial matrix: `inf` everywhere, `0` on the diagonal, then every edge
entry written in list order (lines 159-164).  The edge collection is the
iteration order of the Python dict `aristas`. -/
def fwInit (_n : Nat) (es : List ((Nat × Nat) × ℕ∞)) : Mat :=
  es.foldl (fun d e => setEdge d e.1.1 e.1.2 e.2)
    (fun i j => if i = j then 0 else ⊤)

/-- One relaxation `dist[i][j] = min(dist[i][j], dist[i][k] + dist[k][j])`
(lines 170-171, written there as a guarded assignment). -/
def fwRelax (k : Nat) (d : Mat) (i j : Nat) : Mat :=
  fun a b => if a = i ∧ b = j then min (d i j) (d i k + d k j) else d a b

/-- The innermost `for j in range(num_nodos)` loop at fixed `k`, `i`. -/
def fwInner (k i n : Nat) (d : Mat) : Mat :=
  (List.range n).foldl (fun d j => fwRelax k d i j) d

/-- The middle `for i in range(num_nodos)` loop at fixed `k`. -/
def fwPhase (k n : Nat) (d : Mat) : Mat :=
  (List.range n).foldl (fun d i => fwInner k i n d) d

/-- `floyd_warshall(aristas, num_nodos)` (lines 149-173): initialise, then the
triple loop with the intermediate node `k` outermost. -/
def floyd_warshall (es : List ((Nat × Nat) × ℕ∞)) (n : Nat) : Mat :=
  (List.range n).foldl (fun d k => fwPhase k n d) (fwInit n es)

/-! ## Walks and their costs (specification side for claim C2) -/

/-- Cost of the walk `i, v₁, …, v_m, j` where each step is charged by the
matrix `A` (the program's initial matrix: direct edge weight, `0` on the
diagonal, `⊤` when absent). -/
def walkCost (A : Mat) : Nat → List Nat → Nat → ℕ∞
  | i, [], j => A i j
  | i, v :: vs, j => A i v + walkCost A v vs j

/-! ## The solver (`calcular_mejor_camino`, TPO.py lines 181-284) -/

/-- Parsed case data consumed by the core (`datos` fields used by
`calcular_mejor_camino`): depot id, truck capacity, hub id list in input
order, hub activation costs, and the package destinations in package order
(origins are unused by the core). -/
structure Datos where
  deposito : Nat
  capacidad : Nat
  hubs : List Nat
  costo_hubs : Nat → ℕ∞
  paquetes : List Nat

/-- Best-result record mutated by the search (lines 196-200). -/
structure Mejor where
  mejor_costo : ℕ∞
  mejor_hubs : List Nat
  mejor_ruta : List Nat
  mejor_distancia : ℕ∞
  deriving DecidableEq

/-- Grouping of packages by destination (lines 191-194): a Python dict in
insertion order, destination ↦ package count. -/
def paquetes_por_destino (paquetes : List Nat) : List (Nat × Nat) :=
  paquetes.foldl (fun ppd destino =>
    if ppd.any (fun p => p.1 == destino) then
      ppd.map (fun p => if p.1 == destino then (p.1, p.2 + 1) else p)
    else ppd ++ [(destino, 1)]) []

/-- Dict lookup `paquetes_por_destino[d]` (with default 0, never needed on the
keys the program queries). -/
def demanda (ppd : List (Nat × Nat)) (d : Nat) : Nat :=
  match ppd.find? (fun p => p.1 == d) with
  | some p => p.2
  | none => 0

/-- One step of the trip-building loop (lines 218-225), on the state
`(viajes, viaje_actual, carga_actual)`. -/
def agrupar_paso (capacidad : Nat) (dem : Nat → Nat)
    (st : List (List Nat) × List Nat × Nat) (d : Nat) :
    List (List Nat) × List Nat × Nat :=
  let cant := dem d
  if st.2.2 + cant > capacidad then
    (st.1 ++ [st.2.1], [d], cant)
  else
    (st.1, st.2.1 ++ [d], st.2.2 + cant)

/-- The trip partition (lines 212-227): scan the destinations, closing the
current trip whenever the next demand would exceed the capacity, then close
the final non-empty trip. -/
def armar_viajes (destinos : List Nat) (dem : Nat → Nat) (capacidad : Nat) :
    List (List Nat) :=
  let st := destinos.foldl (agrupar_paso capacidad dem) ([], [], 0)
  if st.2.1 ≠ [] then st.1 ++ [st.2.1] else st.1

/-- Accumulating sum of the leg distances of a trip, ending with the return
leg to the depot (lines 242-245, the `distancia_viaje` accumulation). -/
def tramos (matriz : Mat) (deposito : Nat) : ℕ∞ → Nat → List Nat → ℕ∞
  | acc, u, [] => acc + matriz u deposito
  | acc, u, v :: vs => tramos matriz deposito (acc + matriz u v) v vs

/-- Full cost of one trip `d :: ds` departing from `punto_inicio`
(lines 242-245). -/
def distancia_viaje (matriz : Mat) (deposito punto_inicio d : Nat)
    (ds : List Nat) : ℕ∞ :=
  tramos matriz deposito (matriz punto_inicio d) d ds

/-- The departure-point selection loop (lines 237-249): try each candidate in
order, keeping a strictly better one only. -/
def elegir_inicio (matriz : Mat) (deposito d : Nat) (ds : List Nat)
    (puntos : List Nat) : Nat × ℕ∞ :=
  puntos.foldl (fun st punto_inicio =>
    let distancia := distancia_viaje matriz deposito punto_inicio d ds
    if distancia < st.2 then (punto_inicio, distancia) else st)
    (deposito, ⊤)

/-- Processing of one trip inside a leaf (lines 233-255): accumulate the best
trip distance and extend the route.  An empty trip makes the Python code
raise `IndexError` on `viaje_ordenado[0]`, modelled as `none`. -/
def procesar_viaje (matriz : Mat) (deposito : Nat) (hubs_activos : List Nat)
    (st : ℕ∞ × List Nat) (viaje : List Nat) : Option (ℕ∞ × List Nat) :=
  match viaje with
  | [] => none
  | d :: ds =>
    let r := elegir_inicio matriz deposito d ds (deposito :: hubs_activos)
    some (st.1 + r.2, st.2 ++ [r.1] ++ (d :: ds) ++ [deposito])

/-- The trip loop of a leaf over a given trip list (lines 229-255), starting
from distance `0` and route `[deposito]`. -/
def evaluar_viajes (matriz : Mat) (deposito : Nat) (hubs_activos : List Nat)
    (viajes : List (List Nat)) : Option (ℕ∞ × List Nat) :=
  viajes.foldlM (procesar_viaje matriz deposito hubs_activos) (0, [deposito])

/-- One complete leaf evaluation (lines 211-255): rebuild the trip partition
from the demand map and the capacity, then cost every trip. -/
def evaluar_hoja (matriz : Mat) (deposito capacidad : Nat)
    (ppd : List (Nat × Nat)) (hubs_activos : List Nat) :
    Option (ℕ∞ × List Nat) :=
  let destinos := ppd.map Prod.fst
  evaluar_viajes matriz deposito hubs_activos
    (armar_viajes destinos (demanda ppd) capacidad)

/-- The best-record update at a leaf (lines 257-264): replace only on a
strictly smaller total cost. -/
def actualizar_mejor (mejor : Mejor) (hubs_activos : List Nat)
    (costo_activacion distancia_total : ℕ∞) (ruta_total : List Nat) : Mejor :=
  let costo_total := distancia_total + costo_activacion
  if costo_total < mejor.mejor_costo then
    ⟨costo_total, hubs_activos, ruta_total, distancia_total⟩
  else mejor

/-- The backtracking search `probar_combinaciones` (lines 207-278), structural
on the not-yet-decided tail of the hub list: exclude the current hub first,
then include it. -/
def probar_combinaciones (matriz : Mat) (deposito capacidad : Nat)
    (costo_hubs : Nat → ℕ∞) (ppd : List (Nat × Nat)) :
    List Nat → List Nat → ℕ∞ → Mejor → Option Mejor
  | [], hubs_activos, costo_activacion, mejor =>
    match evaluar_hoja matriz deposito capacidad ppd hubs_activos with
    | none => none
    | some (distancia_total, ruta_total) =>
      some (actualizar_mejor mejor hubs_activos costo_activacion
        distancia_total ruta_total)
  | hub :: resto, hubs_activos, costo_activacion, mejor =>
    match probar_combinaciones matriz deposito capacidad costo_hubs ppd
        resto hubs_activos costo_activacion mejor with
    | none => none
    | some mejor' =>
      probar_combinaciones matriz deposito capacidad costo_hubs ppd
        resto (hubs_activos ++ [hub]) (costo_activacion + costo_hubs hub) mejor'

/-- `calcular_mejor_camino(datos, matriz)` (lines 181-284): run the search
from the initial best record `(inf, [], [], 0)` and return
`(ruta, hubs, costo, distancia, costo_solo_hubs)`. -/
def calcular_mejor_camino (datos : Datos) (matriz : Mat) :
    Option (List Nat × List Nat × ℕ∞ × ℕ∞ × ℕ∞) :=
  let ppd := paquetes_por_destino datos.paquetes
  match probar_combinaciones matriz datos.deposito datos.capacidad
      datos.costo_hubs ppd datos.hubs [] 0 ⟨⊤, [], [], 0⟩ with
  | none => none
  | some m => some (m.mejor_ruta, m.mejor_hubs, m.mejor_costo,
      m.mejor_distancia, m.mejor_costo - m.mejor_distancia)

/-! ## Specification-side search descriptions -/

/-- Leaves of the hub-subset search in visiting order (exclude branch first),
each with its accumulated active-hub list and activation-cost sum. -/
def hojas (costo_hubs : Nat → ℕ∞) :
    List Nat → List Nat → ℕ∞ → List (List Nat × ℕ∞)
  | [], activos, costo => [(activos, costo)]
  | hub :: resto, activos, costo =>
    hojas costo_hubs resto activos costo ++
      hojas costo_hubs resto (activos ++ [hub]) (costo + costo_hubs hub)

/-- The candidate best record produced by one leaf: its leaf evaluation
together with its total cost (distance plus activation-cost sum). -/
def hoja_resultado (matriz : Mat) (deposito capacidad : Nat)
    (ppd : List (Nat × Nat)) (hoja : List Nat × ℕ∞) : Option Mejor :=
  match evaluar_hoja matriz deposito capacidad ppd hoja.1 with
  | none => none
  | some (distancia_total, ruta_total) =>
    some ⟨distancia_total + hoja.2, hoja.1, ruta_total, distancia_total⟩

/-- The trip partition computed once, up front, from the demand map and the
capacity alone (spec: "TripPartitioner output (computed once, independent of
hub choice)"). -/
def particion_global (ppd : List (Nat × Nat)) (capacidad : Nat) :
    List (List Nat) :=
  armar_viajes (ppd.map Prod.fst) (demanda ppd) capacidad

/-- One fold step of the search seen leaf by leaf: incorporate one leaf's
candidate record by strict improvement. -/
def paso_mejor (matriz : Mat) (deposito capacidad : Nat)
    (ppd : List (Nat × Nat)) (mejor : Mejor) (hoja : List Nat × ℕ∞) :
    Option Mejor :=
  match hoja_resultado matriz deposito capacidad ppd hoja with
  | none => none
  | some r => some (if r.mejor_costo < mejor.mejor_costo then r else mejor)

/-- Sum of the consecutive inter-destination distances of a trip starting at
`u` (spec side of the candidate-cost formula). -/
def suma_consecutivos (m : Mat) : Nat → List Nat → ℕ∞
  | _, [] => 0
  | u, v :: vs => m u v + suma_consecutivos m v vs

/-- The candidate cost formula of the spec: `dist[start, trip[0]]` plus the
sum of consecutive inter-destination distances plus `dist[trip[last], depot]`
for the trip `d :: ds`. -/
def costo_candidato (m : Mat) (deposito p d : Nat) (ds : List Nat) : ℕ∞ :=
  m p d + suma_consecutivos m d ds + m (ds.getLastD d) deposito

/-- Depth-bounded variant of the search, used to state the recursion-depth
bound: the outer `none` means the given call-depth budget was exceeded, the
inner `Option` is the crash monad of the search itself. -/
def probar_fuel (matriz : Mat) (deposito capacidad : Nat)
    (costo_hubs : Nat → ℕ∞) (ppd : List (Nat × Nat)) :
    Nat → List Nat → List Nat → ℕ∞ → Mejor → Option (Option Mejor)
  | _, [], hubs_activos, costo_activacion, mejor =>
    match evaluar_hoja matriz deposito capacidad ppd hubs_activos with
    | none => some none
    | some (distancia_total, ruta_total) =>
      some (some (actualizar_mejor mejor hubs_activos costo_activacion
        distancia_total ruta_total))
  | fuel + 1, hub :: resto, hubs_activos, costo_activacion, mejor =>
    match probar_fuel matriz deposito capacidad costo_hubs ppd
        fuel resto hubs_activos costo_activacion mejor with
    | none => none
    | some none => some none
    | some (some mejor') =>
      probar_fuel matriz deposito capacidad costo_hubs ppd
        fuel resto (hubs_activos ++ [hub])
        (costo_activacion + costo_hubs hub) mejor'
  | 0, _ :: _, _, _, _ => none

/-- The matrix after the first `k` phases of the relaxation, written as a
plain recurrence (phase `k` relaxes through intermediate node `k`). -/
def fwIter (n : Nat) (A : Mat) : Nat → Mat
  | 0 => A
  | k + 1 => fwPhase k n (fwIter n A k)

/-! ## Concrete fixture of the end-to-end scenario (claim C1) -/

/-- Edge list of the concrete scenario: `(0,1,5), (1,2,5), (2,3,5), (0,3,9)`. -/
def aristasC1 : List ((Nat × Nat) × ℕ∞) :=
  [((0, 1), 5), ((1, 2), 5), ((2, 3), 5), ((0, 3), 9)]

/-- Case data of the concrete scenario: depot 0, capacity 10, one hub with id
1 and activation cost 1, one package to node 2 and one to node 3. -/
def datosC1 : Datos :=
  ⟨0, 10, [1], (fun h => if h = 1 then 1 else 0), [2, 3]⟩

/-- C1: on the concrete fixture (4 nodes, depot 0, edges (0,1,5), (1,2,5),
(2,3,5), (0,3,9), one hub id 1 with activation cost 1, capacity 10, one
package to node 2 and one to node 3), the solver selects hub 1 as the only
active hub and returns total cost 20 = travel distance 19 plus activation
cost 1, while the hub-free leaf (the depot route) costs 24. -/
theorem solver_concrete_scenario :
    calcular_mejor_camino datosC1 (floyd_warshall aristasC1 4) =
      some ([0, 1, 2, 3, 0], [1], 20, 19, 1) ∧
    evaluar_hoja (floyd_warshall aristasC1 4) 0 10
        (paquetes_por_destino [2, 3]) [] =
      some (24, [0, 0, 2, 3, 0]) := by
  constructor
  · decide
  · decide

/-- C2 (counterexample): the claim "dist[i][i] = 0 for every edge set with
non-negative weights" fails on the self-loop edge set `{(0,0) ↦ 5}` with one
node: the self-loop assignment overwrites the zero diagonal and survives the
relaxation, so `dist[0][0] = 5 ≠ 0`. -/
theorem floyd_warshall_selfloop_diagonal :
    floyd_warshall [((0, 0), (5 : ℕ∞))] 1 0 0 = 5 ∧ (5 : ℕ∞) ≠ 0 := by
  constructor
  · decide
  · decide

/-- C3 (code bug, evaluated at the failing input): with packages `[2, 2]`
(two packages to node 2) and capacity 1, the demand of the first destination
alone exceeds the capacity, so the partition loop closes the still-empty
current trip and emits the empty trip first: the partition is `[[], [2]]`,
violating the claim that every produced trip is non-empty; the downstream
route evaluator then indexes `viaje_ordenado[0]` of the empty trip, so the
whole solver crashes (modelled: returns `none`). -/
theorem armar_viajes_empty_trip :
    armar_viajes (List.map Prod.fst (paquetes_por_destino [2, 2]))
        (demanda (paquetes_por_destino [2, 2])) 1 = [[], [2]] ∧
    calcular_mejor_camino ⟨0, 1, [], (fun _ => 0), [2, 2]⟩
        (floyd_warshall [((0, 2), 1)] 3) = none := by
  constructor
  · decide
  · decide

/-- C7 (counterexample): with zero packages the solver does return total
distance 0, total cost 0 and an empty hub subset, but the returned route is
the single-element list `[deposito]` (line 231 seeds the route with the depot
once and the absent trip loop appends nothing), not `[deposito, deposito]`
as claimed. -/
theorem solver_zero_packages_route :
    calcular_mejor_camino ⟨0, 10, [], (fun _ => 0), []⟩
        (floyd_warshall [] 1) = some ([0], [], 0, 0, 0) ∧
    ([0] : List Nat) ≠ [0, 0] := by
  constructor
  · decide
  · decide

/-- C4: the trip partition is computed from the demand map and the capacity
alone, so the partition used at every leaf of the hub-subset search equals
the one partition computed once up front: every leaf evaluation is the trip
loop run on `particion_global ppd capacidad`, whatever the active-hub list
of that leaf is. -/
theorem leaf_partition_hub_independent (matriz : Mat)
    (deposito capacidad : Nat) (ppd : List (Nat × Nat)) :
    ∀ hubs_activos : List Nat,
      evaluar_hoja matriz deposito capacidad ppd hubs_activos =
        evaluar_viajes matriz deposito hubs_activos
          (particion_global ppd capacidad) := by
  intro hubs_activos
  rfl

lemma tramos_eq (m : Mat) (dep : Nat) :
    ∀ (ds : List Nat) (acc : ℕ∞) (u : Nat),
      tramos m dep acc u ds =
        acc + suma_consecutivos m u ds + m (ds.getLastD u) dep := by
  intro ds
  induction ds with
  | nil => intro acc u; simp [tramos, suma_consecutivos, List.getLastD_nil]
  | cons v vs ih =>
    intro acc u
    simp only [tramos, suma_consecutivos, List.getLastD_cons, ih, add_assoc]

lemma distancia_viaje_eq (m : Mat) (dep p d : Nat) (ds : List Nat) :
    distancia_viaje m dep p d ds = costo_candidato m dep p d ds := by
  simp [distancia_viaje, costo_candidato, tramos_eq]

lemma fold_min_le_init (f : Nat → ℕ∞) :
    ∀ (l : List Nat) (v : ℕ∞),
      l.foldl (fun acc p => min acc (f p)) v ≤ v := by
  intro l
  induction l with
  | nil => intro v; simp
  | cons p t ih =>
    intro v
    calc (p :: t).foldl (fun acc p => min acc (f p)) v
        = t.foldl (fun acc p => min acc (f p)) (min v (f p)) := rfl
      _ ≤ min v (f p) := ih _
      _ ≤ v := min_le_left _ _

lemma fold_min_le_mem (f : Nat → ℕ∞) :
    ∀ (l : List Nat) (v : ℕ∞) (p : Nat), p ∈ l →
      l.foldl (fun acc p => min acc (f p)) v ≤ f p := by
  intro l
  induction l with
  | nil => intro v p hp; cases hp
  | cons q t ih =>
    intro v p hp
    rcases List.mem_cons.mp hp with h | h
    · subst h
      calc (p :: t).foldl (fun acc q => min acc (f q)) v
          = t.foldl (fun acc q => min acc (f q)) (min v (f p)) := rfl
        _ ≤ min v (f p) := fold_min_le_init f t _
        _ ≤ f p := min_le_right _ _
    · exact ih _ _ h

lemma elegir_fold_snd (f : Nat → ℕ∞) :
    ∀ (l : List Nat) (b : Nat) (v : ℕ∞),
      (l.foldl (fun st p => if f p < st.2 then (p, f p) else st) (b, v)).2 =
        l.foldl (fun acc p => min acc (f p)) v := by
  intro l
  induction l with
  | nil => intro b v; rfl
  | cons p t ih =>
    intro b v
    show (t.foldl _ (if f p < v then (p, f p) else (b, v))).2 =
      t.foldl _ (min v (f p))
    by_cases hp : f p < v
    · rw [if_pos hp, ih, min_eq_right hp.le]
    · rw [if_neg hp, ih, min_eq_left (not_lt.mp hp)]

lemma elegir_fold_cases (f : Nat → ℕ∞) :
    ∀ (l : List Nat) (b : Nat) (v : ℕ∞),
      ((l.foldl (fun st p => if f p < st.2 then (p, f p) else st) (b, v)).2 < v →
        l.find? (fun p => decide (f p =
            (l.foldl (fun st p => if f p < st.2 then (p, f p) else st) (b, v)).2)) =
          some (l.foldl (fun st p => if f p < st.2 then (p, f p) else st) (b, v)).1) ∧
      (¬ (l.foldl (fun st p => if f p < st.2 then (p, f p) else st) (b, v)).2 < v →
        l.foldl (fun st p => if f p < st.2 then (p, f p) else st) (b, v) = (b, v)) := by
  intro l
  induction l with
  | nil =>
    intro b v
    exact ⟨fun h => absurd h (lt_irrefl v), fun _ => rfl⟩
  | cons p t ih =>
    intro b v
    have hstep : (p :: t).foldl (fun st q => if f q < st.2 then (q, f q) else st) (b, v) =
        t.foldl (fun st q => if f q < st.2 then (q, f q) else st)
          (if f p < v then (p, f p) else (b, v)) := rfl
    by_cases hp : f p < v
    · rw [hstep, if_pos hp]
      have hsnd := elegir_fold_snd f t p (f p)
      have hle : (t.foldl (fun st q => if f q < st.2 then (q, f q) else st) (p, f p)).2 ≤ f p := by
        rw [hsnd]; exact fold_min_le_init f t _
      constructor
      · intro _
        by_cases hr : (t.foldl (fun st q => if f q < st.2 then (q, f q) else st) (p, f p)).2 < f p
        · have hne : ¬ (f p =
              (t.foldl (fun st q => if f q < st.2 then (q, f q) else st) (p, f p)).2) :=
            fun h => absurd hr (by rw [← h]; exact lt_irrefl _)
          rw [List.find?_cons_of_neg _ (by simpa using hne)]
          exact (ih p (f p)).1 hr
        · have heq := (ih p (f p)).2 hr
          rw [heq]
          rw [List.find?_cons_of_pos _ (by simp)]
      · intro hcontra
        exact absurd (lt_of_le_of_lt hle hp) hcontra
    · rw [hstep, if_neg hp]
      have hpv : v ≤ f p := not_lt.mp hp
      constructor
      · intro hlt
        have hne : ¬ (f p =
            (t.foldl (fun st q => if f q < st.2 then (q, f q) else st) (b, v)).2) := by
          intro h
          exact absurd (lt_of_lt_of_le hlt hpv) (by rw [h]; exact lt_irrefl _)
        rw [List.find?_cons_of_neg _ (by simpa using hne)]
        exact (ih b v).1 hlt
      · intro hge
        exact (ih b v).2 hge

lemma elegir_inicio_as_fold (matriz : Mat) (deposito d : Nat)
    (ds puntos : List Nat) :
    elegir_inicio matriz deposito d ds puntos =
      puntos.foldl (fun st p =>
        if distancia_viaje matriz deposito p d ds < st.2
        then (p, distancia_viaje matriz deposito p d ds) else st)
        (deposito, ⊤) := rfl

/-- C5: for every trip `d :: ds` and active-hub list, the evaluator tries the
candidate departure points exactly in the order `deposito :: hubs_activos`;
each candidate's cost is the spec formula `dist[start, trip[0]]` + sum of
consecutive inter-destination distances + `dist[trip[last], depot]`; the
selected distance is the minimum of the candidate costs, and the selected
start is the earliest-enumerated candidate attaining it (strict-improvement
updates keep the first achiever on ties). -/
theorem elegir_inicio_spec (matriz : Mat) (deposito d : Nat)
    (ds hubs_activos : List Nat) :
    (∀ st : ℕ∞ × List Nat,
      procesar_viaje matriz deposito hubs_activos st (d :: ds) =
        some (st.1 + (elegir_inicio matriz deposito d ds
            (deposito :: hubs_activos)).2,
          st.2 ++ [(elegir_inicio matriz deposito d ds
            (deposito :: hubs_activos)).1] ++ (d :: ds) ++ [deposito])) ∧
    (∀ p, distancia_viaje matriz deposito p d ds =
      costo_candidato matriz deposito p d ds) ∧
    (elegir_inicio matriz deposito d ds (deposito :: hubs_activos)).2 =
      (deposito :: hubs_activos).foldl
        (fun acc p => min acc (costo_candidato matriz deposito p d ds)) ⊤ ∧
    (deposito :: hubs_activos).find?
        (fun p => decide (costo_candidato matriz deposito p d ds =
          (elegir_inicio matriz deposito d ds (deposito :: hubs_activos)).2)) =
      some (elegir_inicio matriz deposito d ds (deposito :: hubs_activos)).1 := by
  have hfg : ∀ p, distancia_viaje matriz deposito p d ds =
      costo_candidato matriz deposito p d ds :=
    fun p => distancia_viaje_eq matriz deposito p d ds
  set f : Nat → ℕ∞ := fun p => distancia_viaje matriz deposito p d ds with hf
  have hsnd := elegir_fold_snd f (deposito :: hubs_activos) deposito ⊤
  have hcases := elegir_fold_cases f (deposito :: hubs_activos) deposito ⊤
  rw [elegir_inicio_as_fold]
  refine ⟨fun st => rfl, hfg, ?_, ?_⟩
  · rw [show (fun st p => if distancia_viaje matriz deposito p d ds < st.2
        then (p, distancia_viaje matriz deposito p d ds) else st) =
        (fun st p => if f p < st.2 then (p, f p) else st) from rfl]
    rw [hsnd]
    have : (fun acc p => min acc (f p)) =
        (fun acc p => min acc (costo_candidato matriz deposito p d ds)) := by
      funext acc p
      simp only [hf, hfg]
    rw [this]
  · rw [show (fun st p => if distancia_viaje matriz deposito p d ds < st.2
        then (p, distancia_viaje matriz deposito p d ds) else st) =
        (fun st p => if f p < st.2 then (p, f p) else st) from rfl]
    have hpred : (fun p => decide (costo_candidato matriz deposito p d ds =
        ((deposito :: hubs_activos).foldl
          (fun st p => if f p < st.2 then (p, f p) else st) (deposito, ⊤)).2)) =
        (fun p => decide (f p =
        ((deposito :: hubs_activos).foldl
          (fun st p => if f p < st.2 then (p, f p) else st) (deposito, ⊤)).2)) := by
      funext p
      simp only [hf, hfg]
    rw [hpred]
    by_cases hlt : ((deposito :: hubs_activos).foldl
        (fun st p => if f p < st.2 then (p, f p) else st) (deposito, ⊤)).2 < ⊤
    · exact hcases.1 hlt
    · have heq := hcases.2 hlt
      have htop : ((deposito :: hubs_activos).foldl
          (fun st p => if f p < st.2 then (p, f p) else st) (deposito, ⊤)).2 = ⊤ := by
        rw [heq]
      have hdep : f deposito = ⊤ := by
        have h1 : ((deposito :: hubs_activos).foldl
            (fun st p => if f p < st.2 then (p, f p) else st) (deposito, ⊤)).2 ≤
            f deposito := by
          rw [hsnd]
          exact fold_min_le_mem f _ _ _ (List.mem_cons_self _ _)
        rw [htop] at h1
        exact top_le_iff.mp h1
      rw [heq]
      rw [List.find?_cons_of_pos _ (by simp [hdep, htop, heq])]

lemma probar_eq_foldlM (matriz : Mat) (deposito capacidad : Nat)
    (costo_hubs : Nat → ℕ∞) (ppd : List (Nat × Nat)) :
    ∀ (hubs activos : List Nat) (costo : ℕ∞) (mejor : Mejor),
      probar_combinaciones matriz deposito capacidad costo_hubs ppd
          hubs activos costo mejor =
        (hojas costo_hubs hubs activos costo).foldlM
          (paso_mejor matriz deposito capacidad ppd) mejor := by
  intro hubs
  induction hubs with
  | nil =>
    intro activos costo mejor
    show (match evaluar_hoja matriz deposito capacidad ppd activos with
      | none => none
      | some (distancia_total, ruta_total) =>
        some (actualizar_mejor mejor activos costo distancia_total ruta_total)) = _
    cases h : evaluar_hoja matriz deposito capacidad ppd activos with
    | none =>
      simp [hojas, List.foldlM, paso_mejor, hoja_resultado, h]
    | some dr =>
      cases dr with
      | mk distancia_total ruta_total =>
        simp [hojas, List.foldlM, paso_mejor, hoja_resultado, h,
          actualizar_mejor]
  | cons hub resto ih =>
    intro activos costo mejor
    show (match probar_combinaciones matriz deposito capacidad costo_hubs ppd
        resto activos costo mejor with
      | none => none
      | some mejor' =>
        probar_combinaciones matriz deposito capacidad costo_hubs ppd
          resto (activos ++ [hub]) (costo + costo_hubs hub) mejor') = _
    rw [show hojas costo_hubs (hub :: resto) activos costo =
      hojas costo_hubs resto activos costo ++
        hojas costo_hubs resto (activos ++ [hub]) (costo + costo_hubs hub)
      from rfl]
    rw [List.foldlM_append]
    rw [ih activos costo mejor]
    cases h : (hojas costo_hubs resto activos costo).foldlM
        (paso_mejor matriz deposito capacidad ppd) mejor with
    | none => rfl
    | some mejor' =>
      simp only [Option.bind_eq_bind, Option.some_bind]
      exact ih (activos ++ [hub]) (costo + costo_hubs hub) mejor'

lemma hojas_cabeza (costo_hubs : Nat → ℕ∞) :
    ∀ (hubs activos : List Nat) (costo : ℕ∞),
      ∃ resto, hojas costo_hubs hubs activos costo = (activos, costo) :: resto := by
  intro hubs
  induction hubs with
  | nil => intro activos costo; exact ⟨[], rfl⟩
  | cons hub t ih =>
    intro activos costo
    obtain ⟨r, hr⟩ := ih activos costo
    exact ⟨r ++ hojas costo_hubs t (activos ++ [hub]) (costo + costo_hubs hub),
      by simp [hojas, hr]⟩

lemma hojas_length (costo_hubs : Nat → ℕ∞) :
    ∀ (hubs activos : List Nat) (costo : ℕ∞),
      (hojas costo_hubs hubs activos costo).length = 2 ^ hubs.length := by
  intro hubs
  induction hubs with
  | nil => intro activos costo; rfl
  | cons hub t ih =>
    intro activos costo
    simp only [hojas, List.length_append, ih, List.length_cons]
    rw [pow_succ, mul_two]

lemma probar_fuel_nil (matriz : Mat) (deposito capacidad : Nat)
    (costo_hubs : Nat → ℕ∞) (ppd : List (Nat × Nat)) (fuel : Nat)
    (activos : List Nat) (costo : ℕ∞) (mejor : Mejor) :
    probar_fuel matriz deposito capacidad costo_hubs ppd
        fuel [] activos costo mejor =
      match evaluar_hoja matriz deposito capacidad ppd activos with
      | none => some none
      | some (distancia_total, ruta_total) =>
        some (some (actualizar_mejor mejor activos costo distancia_total
          ruta_total)) := by
  cases fuel <;> rfl

lemma probar_fuel_adequate (matriz : Mat) (deposito capacidad : Nat)
    (costo_hubs : Nat → ℕ∞) (ppd : List (Nat × Nat)) :
    ∀ (hubs : List Nat) (fuel : Nat), hubs.length ≤ fuel →
      ∀ (activos : List Nat) (costo : ℕ∞) (mejor : Mejor),
        probar_fuel matriz deposito capacidad costo_hubs ppd
            fuel hubs activos costo mejor =
          some (probar_combinaciones matriz deposito capacidad costo_hubs ppd
            hubs activos costo mejor) := by
  intro hubs
  induction hubs with
  | nil =>
    intro fuel _ activos costo mejor
    rw [probar_fuel_nil]
    cases h : evaluar_hoja matriz deposito capacidad ppd activos with
    | none => simp [probar_combinaciones, h]
    | some dr =>
      cases dr with
      | mk distancia_total ruta_total => simp [probar_combinaciones, h]
  | cons hub resto ih =>
    intro fuel hfuel activos costo mejor
    cases fuel with
    | zero => exact absurd hfuel (by simp)
    | succ f =>
      have hf : resto.length ≤ f := Nat.le_of_succ_le_succ hfuel
      show (match probar_fuel matriz deposito capacidad costo_hubs ppd
          f resto activos costo mejor with
        | none => none
        | some none => some none
        | some (some mejor') =>
          probar_fuel matriz deposito capacidad costo_hubs ppd
            f resto (activos ++ [hub]) (costo + costo_hubs hub) mejor') = _
      rw [ih f hf activos costo mejor]
      cases h : probar_combinaciones matriz deposito capacidad costo_hubs ppd
          resto activos costo mejor with
      | none => simp [probar_combinaciones, h]
      | some mejor' =>
        simp only []
        rw [ih f hf (activos ++ [hub]) (costo + costo_hubs hub) mejor']
        simp [probar_combinaciones, h]

lemma tramos_top (m : Mat) (dep : Nat) :
    ∀ (ds : List Nat) (u : Nat), tramos m dep ⊤ u ds = ⊤ := by
  intro ds
  induction ds with
  | nil => intro u; simp [tramos]
  | cons v vs ih => intro u; simp [tramos, ih]

lemma fold_min_const_top (f : Nat → ℕ∞) :
    ∀ (l : List Nat) (v : ℕ∞), (∀ p ∈ l, f p = ⊤) →
      l.foldl (fun acc p => min acc (f p)) v = v := by
  intro l
  induction l with
  | nil => intro v _; rfl
  | cons p t ih =>
    intro v h
    show t.foldl (fun acc p => min acc (f p)) (min v (f p)) = v
    rw [h p (List.mem_cons_self _ _), min_eq_left le_top]
    exact ih v (fun q hq => h q (List.mem_cons_of_mem _ hq))

lemma elegir_inicio_top (matriz : Mat) (deposito d : Nat)
    (ds puntos : List Nat)
    (h : ∀ p ∈ puntos, distancia_viaje matriz deposito p d ds = ⊤) :
    (elegir_inicio matriz deposito d ds puntos).2 = ⊤ := by
  rw [elegir_inicio_as_fold, elegir_fold_snd]
  exact fold_min_const_top _ puntos ⊤ h

lemma fold_mejor_spec (matriz : Mat) (deposito capacidad : Nat)
    (ppd : List (Nat × Nat)) :
    ∀ (L : List (List Nat × ℕ∞)) (mejor m' : Mejor),
      L.foldlM (paso_mejor matriz deposito capacidad ppd) mejor = some m' →
      m'.mejor_costo ≤ mejor.mejor_costo ∧
      (∀ l ∈ L, ∀ r, hoja_resultado matriz deposito capacidad ppd l = some r →
        m'.mejor_costo ≤ r.mejor_costo) ∧
      (m'.mejor_costo < mejor.mejor_costo →
        ∃ l r, L.find? (fun l => decide
            ((hoja_resultado matriz deposito capacidad ppd l).map
              Mejor.mejor_costo = some m'.mejor_costo)) = some l ∧
          hoja_resultado matriz deposito capacidad ppd l = some r ∧ m' = r) ∧
      (¬ m'.mejor_costo < mejor.mejor_costo → m' = mejor) := by
  intro L
  induction L with
  | nil =>
    intro mejor m' h
    have hm : mejor = m' := by simpa [List.foldlM] using h
    subst hm
    exact ⟨le_refl _, by simp, fun hc => absurd hc (lt_irrefl _), fun _ => rfl⟩
  | cons l0 T ih =>
    intro mejor m' h
    rw [List.foldlM_cons] at h
    cases h0 : hoja_resultado matriz deposito capacidad ppd l0 with
    | none => simp [paso_mejor, h0] at h
    | some r0 =>
      have hpaso : paso_mejor matriz deposito capacidad ppd mejor l0 =
          some (if r0.mejor_costo < mejor.mejor_costo then r0 else mejor) := by
        simp [paso_mejor, h0]
      rw [hpaso] at h
      simp only [Option.bind_eq_bind, Option.some_bind] at h
      by_cases h1 : r0.mejor_costo < mejor.mejor_costo
      · rw [if_pos h1] at h
        obtain ⟨ha, hb, hc1, hc2⟩ := ih r0 m' h
        have ham : m'.mejor_costo < mejor.mejor_costo := lt_of_le_of_lt ha h1
        refine ⟨ham.le, ?_, ?_, ?_⟩
        · intro l hl r hr
          rcases List.mem_cons.mp hl with hleq | hl'
          · subst hleq
            rw [h0] at hr
            injection hr with hr0
            rw [← hr0]
            exact ha
          · exact hb l hl' r hr
        · intro _
          by_cases hm : m'.mejor_costo < r0.mejor_costo
          · obtain ⟨l, r, hfind, hres, hmr⟩ := hc1 hm
            refine ⟨l, r, ?_, hres, hmr⟩
            rw [List.find?_cons_of_neg _ ?_, hfind]
            simp only [h0, Option.map_some', decide_eq_true_eq,
              Option.some.injEq]
            exact ne_of_gt hm
          · have hm2 := hc2 hm
            refine ⟨l0, r0, ?_, h0, hm2⟩
            rw [List.find?_cons_of_pos]
            simp [h0, hm2]
        · intro hcon
          exact absurd ham hcon
      · rw [if_neg h1] at h
        obtain ⟨ha, hb, hc1, hc2⟩ := ih mejor m' h
        have h1' : mejor.mejor_costo ≤ r0.mejor_costo := not_lt.mp h1
        refine ⟨ha, ?_, ?_, hc2⟩
        · intro l hl r hr
          rcases List.mem_cons.mp hl with hleq | hl'
          · subst hleq
            rw [h0] at hr
            injection hr with hr0
            rw [← hr0]
            exact le_trans ha h1'
          · exact hb l hl' r hr
        · intro hlt
          obtain ⟨l, r, hfind, hres, hmr⟩ := hc1 hlt
          refine ⟨l, r, ?_, hres, hmr⟩
          rw [List.find?_cons_of_neg _ ?_, hfind]
          simp only [h0, Option.map_some', decide_eq_true_eq,
            Option.some.injEq]
          exact ne_of_gt (lt_of_lt_of_le hlt h1')

/-- C6: whenever the search completes on a subtree, the tracked best record
is replaced only on strictly smaller total cost: the final best cost never
exceeds the incoming one; it is a lower bound on every evaluated leaf's total
cost (distance plus activation-cost sum); if no leaf improved strictly, the
record is returned untouched; and when an improvement happened, the returned
record is exactly the one of the first leaf — in the exclude-before-include
depth-first order — whose total cost equals the final (optimal) cost, so
exact ties keep the first-discovered optimum. -/
theorem probar_best_update_spec (matriz : Mat) (deposito capacidad : Nat)
    (costo_hubs : Nat → ℕ∞) (ppd : List (Nat × Nat))
    (hubs activos : List Nat) (costo : ℕ∞) (mejor m' : Mejor)
    (h : probar_combinaciones matriz deposito capacidad costo_hubs ppd
      hubs activos costo mejor = some m') :
    m'.mejor_costo ≤ mejor.mejor_costo ∧
    (∀ l ∈ hojas costo_hubs hubs activos costo,
      ∀ r, hoja_resultado matriz deposito capacidad ppd l = some r →
        m'.mejor_costo ≤ r.mejor_costo) ∧
    (m'.mejor_costo < mejor.mejor_costo →
      ∃ l r, (hojas costo_hubs hubs activos costo).find? (fun l => decide
          ((hoja_resultado matriz deposito capacidad ppd l).map
            Mejor.mejor_costo = some m'.mejor_costo)) = some l ∧
        hoja_resultado matriz deposito capacidad ppd l = some r ∧ m' = r) ∧
    (¬ m'.mejor_costo < mejor.mejor_costo → m' = mejor) := by
  rw [probar_eq_foldlM] at h
  exact fold_mejor_spec matriz deposito capacidad ppd _ mejor m' h

/-- Witness for C6 at the end-to-end fixture: the search over hub list `[1]`
completes with best record `(20, [1], [0,1,2,3,0], 19)`, whose cost does not
exceed the initial infinite cost. -/
theorem probar_best_update_spec_witness :
    probar_combinaciones (floyd_warshall aristasC1 4) 0 10
        datosC1.costo_hubs (paquetes_por_destino [2, 3]) [1] [] 0
        ⟨⊤, [], [], 0⟩ = some ⟨20, [1], [0, 1, 2, 3, 0], 19⟩ ∧
    (⟨20, [1], [0, 1, 2, 3, 0], 19⟩ : Mejor).mejor_costo ≤
      (⟨⊤, [], [], 0⟩ : Mejor).mejor_costo :=
  ⟨by decide,
    (probar_best_update_spec (floyd_warshall aristasC1 4) 0 10
      datosC1.costo_hubs (paquetes_por_destino [2, 3]) [1] [] 0
      ⟨⊤, [], [], 0⟩ ⟨20, [1], [0, 1, 2, 3, 0], 19⟩ (by decide)).1⟩

/-- C9: the depth-bounded interpreter with call-depth budget `|hubs|` already
computes the full search (the recursion depth is bounded by the hub count,
and the search is total); the search equals one leaf-update fold over the
leaf enumeration, which has exactly `2 ^ |hubs|` entries (one cost evaluation
per subset of the hub list); and with zero hubs there is exactly one leaf,
whose result has an empty active-hub set and cost equal to the pure
depot-route distance. -/
theorem search_leaf_count_and_depth (matriz : Mat) (deposito capacidad : Nat)
    (costo_hubs : Nat → ℕ∞) (ppd : List (Nat × Nat))
    (hubs activos : List Nat) (costo : ℕ∞) (mejor : Mejor)
    (d0 : ℕ∞) (ruta0 : List Nat)
    (h : evaluar_hoja matriz deposito capacidad ppd [] = some (d0, ruta0)) :
    probar_fuel matriz deposito capacidad costo_hubs ppd
        hubs.length hubs activos costo mejor =
      some (probar_combinaciones matriz deposito capacidad costo_hubs ppd
        hubs activos costo mejor) ∧
    probar_combinaciones matriz deposito capacidad costo_hubs ppd
        hubs activos costo mejor =
      (hojas costo_hubs hubs activos costo).foldlM
        (paso_mejor matriz deposito capacidad ppd) mejor ∧
    (hojas costo_hubs hubs activos costo).length = 2 ^ hubs.length ∧
    (hojas costo_hubs [] activos costo).length = 1 ∧
    (∃ m', probar_combinaciones matriz deposito capacidad costo_hubs ppd
        [] [] 0 ⟨⊤, [], [], 0⟩ = some m' ∧
      m'.mejor_hubs = [] ∧ m'.mejor_costo = d0) := by
  refine ⟨probar_fuel_adequate matriz deposito capacidad costo_hubs ppd
      hubs hubs.length (le_refl _) activos costo mejor,
    probar_eq_foldlM matriz deposito capacidad costo_hubs ppd
      hubs activos costo mejor,
    hojas_length costo_hubs hubs activos costo, rfl, ?_⟩
  have hp : probar_combinaciones matriz deposito capacidad costo_hubs ppd
      [] [] 0 ⟨⊤, [], [], 0⟩ =
      some (actualizar_mejor ⟨⊤, [], [], 0⟩ [] 0 d0 ruta0) := by
    show (match evaluar_hoja matriz deposito capacidad ppd [] with
      | none => none
      | some (distancia_total, ruta_total) =>
        some (actualizar_mejor ⟨⊤, [], [], 0⟩ [] 0 distancia_total
          ruta_total)) = _
    rw [h]
  refine ⟨actualizar_mejor ⟨⊤, [], [], 0⟩ [] 0 d0 ruta0, hp, ?_, ?_⟩
  · by_cases hd : d0 < (⊤ : ℕ∞)
    · simp [actualizar_mejor, hd]
    · simp [actualizar_mejor, hd]
  · by_cases hd : d0 < (⊤ : ℕ∞)
    · simp [actualizar_mejor, hd]
    · have htop : d0 = ⊤ := by
        by_contra hne
        exact hd (lt_top_iff_ne_top.mpr hne)
      simp [actualizar_mejor, hd, htop]

/-- Witness for C9 at the end-to-end fixture: the depot-only leaf evaluates
to distance 24, and fuel `|hubs| = 1` suffices to run the whole search. -/
theorem search_leaf_count_and_depth_witness :
    evaluar_hoja (floyd_warshall aristasC1 4) 0 10
        (paquetes_por_destino [2, 3]) [] = some (24, [0, 0, 2, 3, 0]) ∧
    probar_fuel (floyd_warshall aristasC1 4) 0 10 datosC1.costo_hubs
        (paquetes_por_destino [2, 3]) ([1] : List Nat).length [1] [] 0
        ⟨⊤, [], [], 0⟩ =
      some (probar_combinaciones (floyd_warshall aristasC1 4) 0 10
        datosC1.costo_hubs (paquetes_por_destino [2, 3]) [1] [] 0
        ⟨⊤, [], [], 0⟩) :=
  ⟨by decide,
    (search_leaf_count_and_depth (floyd_warshall aristasC1 4) 0 10
      datosC1.costo_hubs (paquetes_por_destino [2, 3]) [1] [] 0
      ⟨⊤, [], [], 0⟩ 24 [0, 0, 2, 3, 0] (by decide)).1⟩

lemma hoja_resultado_sin_paquetes (matriz : Mat) (deposito capacidad : Nat)
    (hoja : List Nat × ℕ∞) :
    hoja_resultado matriz deposito capacidad [] hoja =
      some ⟨0 + hoja.2, hoja.1, [deposito], 0⟩ := rfl

lemma fold_no_update (matriz : Mat) (deposito capacidad : Nat)
    (ppd : List (Nat × Nat)) :
    ∀ (L : List (List Nat × ℕ∞)) (mejor : Mejor),
      (∀ l ∈ L, ∃ r, hoja_resultado matriz deposito capacidad ppd l = some r ∧
        ¬ r.mejor_costo < mejor.mejor_costo) →
      L.foldlM (paso_mejor matriz deposito capacidad ppd) mejor = some mejor := by
  intro L
  induction L with
  | nil => intro mejor _; rfl
  | cons l0 T ih =>
    intro mejor h
    obtain ⟨r, hr, hnl⟩ := h l0 (List.mem_cons_self _ _)
    rw [List.foldlM_cons]
    have hpaso : paso_mejor matriz deposito capacidad ppd mejor l0 =
        some mejor := by
      simp [paso_mejor, hr, if_neg hnl]
    rw [hpaso]
    simp only [Option.bind_eq_bind, Option.some_bind]
    exact ih mejor (fun l hl => h l (List.mem_cons_of_mem _ hl))

/-- C7 (amended): with zero packages the solver returns total distance 0,
total cost 0, an empty active-hub subset, a hub-cost component of 0, and the
route `[deposito]` (the depot anchor alone). -/
theorem solver_zero_packages_amended (matriz : Mat)
    (deposito capacidad : Nat) (hubs : List Nat) (costo_hubs : Nat → ℕ∞) :
    calcular_mejor_camino ⟨deposito, capacidad, hubs, costo_hubs, []⟩ matriz =
      some ([deposito], [], 0, 0, 0) := by
  have hppd : paquetes_por_destino [] = [] := rfl
  obtain ⟨resto, hcab⟩ := hojas_cabeza costo_hubs hubs [] 0
  have hfold : (hojas costo_hubs hubs [] 0).foldlM
      (paso_mejor matriz deposito capacidad []) ⟨⊤, [], [], 0⟩ =
      some ⟨0, [], [deposito], 0⟩ := by
    rw [hcab, List.foldlM_cons]
    have hstep : paso_mejor matriz deposito capacidad [] ⟨⊤, [], [], 0⟩
        ([], 0) = some ⟨0, [], [deposito], 0⟩ := by
      simp [paso_mejor, hoja_resultado_sin_paquetes]
    rw [hstep]
    simp only [Option.bind_eq_bind, Option.some_bind]
    exact fold_no_update matriz deposito capacidad [] resto ⟨0, [], [deposito], 0⟩
      (fun l _ => ⟨⟨0 + l.2, l.1, [deposito], 0⟩,
        hoja_resultado_sin_paquetes matriz deposito capacidad l,
        not_lt.mpr (zero_le _)⟩)
  show (match probar_combinaciones matriz deposito capacidad costo_hubs
      (paquetes_por_destino []) hubs [] 0 ⟨⊤, [], [], 0⟩ with
    | none => none
    | some m => some (m.mejor_ruta, m.mejor_hubs, m.mejor_costo,
        m.mejor_distancia, m.mejor_costo - m.mejor_distancia)) = _
  rw [hppd, probar_eq_foldlM, hfold]
  simp

lemma evaluar_viajes_infeasible (matriz : Mat) (deposito : Nat)
    (activos : List Nat) :
    ∀ (viajes : List (List Nat)) (st : ℕ∞ × List Nat),
      (∀ v ∈ viajes, v ≠ []) →
      (∀ punto d ds, (d :: ds) ∈ viajes →
        distancia_viaje matriz deposito punto d ds = ⊤) →
      ∃ res, viajes.foldlM (procesar_viaje matriz deposito activos) st =
          some res ∧
        (viajes = [] → res = st) ∧ (viajes ≠ [] → res.1 = ⊤) := by
  intro viajes
  induction viajes with
  | nil =>
    intro st _ _
    exact ⟨st, rfl, fun _ => rfl, fun hne => absurd rfl hne⟩
  | cons v T ih =>
    intro st hne hinf
    cases v with
    | nil => exact absurd rfl (hne [] (List.mem_cons_self _ _))
    | cons d ds =>
      have hr : (elegir_inicio matriz deposito d ds (deposito :: activos)).2 = ⊤ :=
        elegir_inicio_top matriz deposito d ds (deposito :: activos)
          (fun p _ => hinf p d ds (List.mem_cons_self _ _))
      have hstep : procesar_viaje matriz deposito activos st (d :: ds) =
          some (st.1 + (elegir_inicio matriz deposito d ds
              (deposito :: activos)).2,
            st.2 ++ [(elegir_inicio matriz deposito d ds
              (deposito :: activos)).1] ++ (d :: ds) ++ [deposito]) := rfl
      obtain ⟨res, hfold, htnil, htne⟩ := ih
        (st.1 + (elegir_inicio matriz deposito d ds (deposito :: activos)).2,
          st.2 ++ [(elegir_inicio matriz deposito d ds
            (deposito :: activos)).1] ++ (d :: ds) ++ [deposito])
        (fun w hw => hne w (List.mem_cons_of_mem _ hw))
        (fun punto e es hmem => hinf punto e es (List.mem_cons_of_mem _ hmem))
      refine ⟨res, ?_, fun hcon => absurd hcon (by simp), fun _ => ?_⟩
      · rw [List.foldlM_cons, hstep]
        simpa using hfold
      · rcases eq_or_ne T [] with hT | hT
        · rw [htnil hT]
          show st.1 + (elegir_inicio matriz deposito d ds
            (deposito :: activos)).2 = ⊤
          rw [hr, add_top]
        · exact htne hT

lemma calcular_sin_actualizar (matriz : Mat) (deposito capacidad : Nat)
    (hubs : List Nat) (costo_hubs : Nat → ℕ∞) (paquetes : List Nat)
    (h : ∀ hoja : List Nat × ℕ∞, ∃ r,
      hoja_resultado matriz deposito capacidad
        (paquetes_por_destino paquetes) hoja = some r ∧
      r.mejor_costo = ⊤) :
    calcular_mejor_camino ⟨deposito, capacidad, hubs, costo_hubs, paquetes⟩
      matriz = some ([], [], ⊤, 0, ⊤) := by
  have hfold : (hojas costo_hubs hubs [] 0).foldlM
      (paso_mejor matriz deposito capacidad (paquetes_por_destino paquetes))
      ⟨⊤, [], [], 0⟩ = some ⟨⊤, [], [], 0⟩ := by
    refine fold_no_update matriz deposito capacidad _ _ _ (fun l _ => ?_)
    obtain ⟨r, hr, hrtop⟩ := h l
    exact ⟨r, hr, by rw [hrtop]; exact not_top_lt⟩
  show (match probar_combinaciones matriz deposito capacidad costo_hubs
      (paquetes_por_destino paquetes) hubs [] 0 ⟨⊤, [], [], 0⟩ with
    | none => none
    | some m => some (m.mejor_ruta, m.mejor_hubs, m.mejor_costo,
        m.mejor_distancia, m.mejor_costo - m.mejor_distancia)) = _
  rw [probar_eq_foldlM, hfold]
  simp

/-- C8: infinite distances propagate unchanged through the cost sums (a trip
whose first leg is `⊤` costs `⊤`), and when every trip of the partition is
infeasible from every departure point, the search completes normally (no
crash) without ever updating the initial best record, so the reported
optimum is the defined value with infinite total cost: route `[]`, hubs `[]`,
cost `⊤`, distance `0` and hub-cost component `⊤`. -/
theorem infeasible_search_defined_result (matriz : Mat)
    (deposito capacidad : Nat) (hubs : List Nat) (costo_hubs : Nat → ℕ∞)
    (paquetes : List Nat)
    (hne : ∀ v ∈ particion_global (paquetes_por_destino paquetes) capacidad,
      v ≠ [])
    (hnv : particion_global (paquetes_por_destino paquetes) capacidad ≠ [])
    (hinf : ∀ punto d ds,
      (d :: ds) ∈ particion_global (paquetes_por_destino paquetes) capacidad →
      distancia_viaje matriz deposito punto d ds = ⊤) :
    (∀ punto d ds, matriz punto d = ⊤ →
      distancia_viaje matriz deposito punto d ds = ⊤) ∧
    calcular_mejor_camino ⟨deposito, capacidad, hubs, costo_hubs, paquetes⟩
      matriz = some ([], [], ⊤, 0, ⊤) := by
  constructor
  · intro punto d ds hd
    show tramos matriz deposito (matriz punto d) d ds = ⊤
    rw [hd]
    exact tramos_top matriz deposito ds d
  · refine calcular_sin_actualizar matriz deposito capacidad hubs costo_hubs
      paquetes (fun hoja => ?_)
    obtain ⟨res, hfold, _, htne⟩ := evaluar_viajes_infeasible matriz deposito
      hoja.1 (particion_global (paquetes_por_destino paquetes) capacidad)
      (0, [deposito]) hne hinf
    have htop : res.1 = ⊤ := htne hnv
    refine ⟨⟨res.1 + hoja.2, hoja.1, res.2, res.1⟩, ?_, ?_⟩
    · show (match evaluar_hoja matriz deposito capacidad
          (paquetes_por_destino paquetes) hoja.1 with
        | none => none
        | some (distancia_total, ruta_total) =>
          some (⟨distancia_total + hoja.2, hoja.1, ruta_total,
            distancia_total⟩ : Mejor)) = _
      have hev : evaluar_hoja matriz deposito capacidad
          (paquetes_por_destino paquetes) hoja.1 = some res := hfold
      rw [hev]
    · show res.1 + hoja.2 = ⊤
      rw [htop, top_add]

/-- C10: when every hub subset's leaf evaluation yields an infinite distance
(every candidate is infeasible), the best-result record is never updated
from its initial values, so the solver returns total cost `⊤`, an empty
route list, an empty active-hub list, distance `0`, and a hub-cost component
of `⊤`: the caller receives no depot-anchored waypoint sequence. -/
theorem solver_never_updated_all_infinite (matriz : Mat)
    (deposito capacidad : Nat) (hubs : List Nat) (costo_hubs : Nat → ℕ∞)
    (paquetes : List Nat)
    (hsome : ∀ activos : List Nat,
      (evaluar_hoja matriz deposito capacidad
        (paquetes_por_destino paquetes) activos).isSome = true)
    (hinf : ∀ (activos : List Nat) (d : ℕ∞) (ruta : List Nat),
      evaluar_hoja matriz deposito capacidad
        (paquetes_por_destino paquetes) activos = some (d, ruta) → d = ⊤) :
    calcular_mejor_camino ⟨deposito, capacidad, hubs, costo_hubs, paquetes⟩
      matriz = some ([], [], ⊤, 0, ⊤) := by
  refine calcular_sin_actualizar matriz deposito capacidad hubs costo_hubs
    paquetes (fun hoja => ?_)
  obtain ⟨dr, hev⟩ := Option.isSome_iff_exists.mp (hsome hoja.1)
  cases dr with
  | mk d ruta =>
    have hd : d = ⊤ := hinf hoja.1 d ruta hev
    refine ⟨⟨d + hoja.2, hoja.1, ruta, d⟩, ?_, ?_⟩
    · show (match evaluar_hoja matriz deposito capacidad
          (paquetes_por_destino paquetes) hoja.1 with
        | none => none
        | some (distancia_total, ruta_total) =>
          some (⟨distancia_total + hoja.2, hoja.1, ruta_total,
            distancia_total⟩ : Mejor)) = _
      rw [hev]
    · show d + hoja.2 = ⊤
      rw [hd, top_add]

/-- Witness for C8 on a disconnected fixture: two nodes, no edges, depot 0,
one package to the unreachable node 1, no hubs.  Every trip is infeasible
from every departure point, and the solver reports the defined infinite-cost
optimum. -/
theorem infeasible_search_defined_result_witness :
    particion_global (paquetes_por_destino [1]) 10 ≠ [] ∧
    calcular_mejor_camino ⟨0, 10, [], (fun _ => 0), [1]⟩
      (floyd_warshall [] 2) = some ([], [], ⊤, 0, ⊤) := by
  have hinf : ∀ punto d ds,
      (d :: ds) ∈ particion_global (paquetes_por_destino [1]) 10 →
      distancia_viaje (floyd_warshall [] 2) 0 punto d ds = ⊤ := by
    intro punto d ds hmem
    have hpart : particion_global (paquetes_por_destino [1]) 10 = [[1]] := by
      decide
    rw [hpart] at hmem
    have hd : d :: ds = [1] := List.mem_singleton.mp hmem
    injection hd with hd1 hd2
    subst hd1
    subst hd2
    show floyd_warshall [] 2 punto 1 + floyd_warshall [] 2 1 0 = ⊤
    have h10 : floyd_warshall [] 2 1 0 = ⊤ := by decide
    rw [h10]
    exact add_top _
  exact ⟨by decide,
    (infeasible_search_defined_result (floyd_warshall [] 2) 0 10 []
      (fun _ => 0) [1] (by decide) (by decide) hinf).2⟩

/-- Witness for C10 on the same disconnected fixture: every leaf evaluation
is defined and yields infinite distance, and the solver returns the
untouched initial record. -/
theorem solver_never_updated_all_infinite_witness :
    (evaluar_hoja (floyd_warshall [] 2) 0 10
      (paquetes_por_destino [1]) []).isSome = true ∧
    calcular_mejor_camino ⟨0, 10, [], (fun _ => 0), [1]⟩
      (floyd_warshall [] 2) = some ([], [], ⊤, 0, ⊤) := by
  have hsome : ∀ activos : List Nat,
      (evaluar_hoja (floyd_warshall [] 2) 0 10
        (paquetes_por_destino [1]) activos).isSome = true :=
    fun activos => rfl
  have hinf : ∀ (activos : List Nat) (d : ℕ∞) (ruta : List Nat),
      evaluar_hoja (floyd_warshall [] 2) 0 10
        (paquetes_por_destino [1]) activos = some (d, ruta) → d = ⊤ := by
    intro activos d ruta h
    have hr : (elegir_inicio (floyd_warshall [] 2) 0 1 [] (0 :: activos)).2 = ⊤ := by
      refine elegir_inicio_top _ _ _ _ _ (fun p _ => ?_)
      show floyd_warshall [] 2 p 1 + floyd_warshall [] 2 1 0 = ⊤
      have h10 : floyd_warshall [] 2 1 0 = ⊤ := by decide
      rw [h10]
      exact add_top _
    have hev : evaluar_hoja (floyd_warshall [] 2) 0 10
        (paquetes_por_destino [1]) activos =
        some ((0 : ℕ∞) +
            (elegir_inicio (floyd_warshall [] 2) 0 1 [] (0 :: activos)).2,
          [0] ++ [(elegir_inicio (floyd_warshall [] 2) 0 1 []
            (0 :: activos)).1] ++ [1] ++ [0]) := rfl
    rw [hev] at h
    have hpair := Option.some.inj h
    have hd : (0 : ℕ∞) +
        (elegir_inicio (floyd_warshall [] 2) 0 1 [] (0 :: activos)).2 = d :=
      congrArg Prod.fst hpair
    rw [← hd, hr]
    exact add_top 0
  exact ⟨hsome [],
    solver_never_updated_all_infinite (floyd_warshall [] 2) 0 10 []
      (fun _ => 0) [1] hsome hinf⟩

lemma fwInner_spec (k i : Nat) (d : Mat) :
    ∀ (n a b : Nat),
      fwInner k i n d a b =
        if a = i ∧ b < n then min (d a b) (d a k + d k b) else d a b := by
  intro n
  induction n with
  | zero =>
    intro a b
    simp [fwInner]
  | succ n ih =>
    intro a b
    have hstep : fwInner k i (n + 1) d = fwRelax k (fwInner k i n d) i n := by
      unfold fwInner
      rw [List.range_succ, List.foldl_append]
      rfl
    rw [hstep]
    unfold fwRelax
    by_cases hab : a = i ∧ b = n
    · rw [if_pos hab]
      have h1 : fwInner k i n d i n = d i n := by
        rw [ih]
        simp
      have h2 : fwInner k i n d i k = d i k := by
        rw [ih]
        by_cases hk : k < n
        · rw [if_pos ⟨rfl, hk⟩]
          exact min_eq_left (self_le_add_right _ _)
        · rw [if_neg (fun hcon => hk hcon.2)]
      have h3 : fwInner k i n d k n = d k n := by
        rw [ih]
        rw [if_neg (fun hcon => lt_irrefl n hcon.2)]
      rw [h1, h2, h3, hab.1, hab.2]
      rw [if_pos ⟨rfl, Nat.lt_succ_self n⟩]
    · rw [if_neg hab, ih]
      by_cases h2 : a = i ∧ b < n
      · rw [if_pos h2, if_pos ⟨h2.1, Nat.lt_succ_of_lt h2.2⟩]
      · rw [if_neg h2, if_neg ?_]
        rintro ⟨ha, hb1⟩
        rcases Nat.lt_succ_iff_lt_or_eq.mp hb1 with hb | hb
        · exact h2 ⟨ha, hb⟩
        · exact hab ⟨ha, hb⟩

lemma fwPhase_rows (k n : Nat) (d : Mat) :
    ∀ (m a b : Nat),
      ((List.range m).foldl (fun d i => fwInner k i n d) d) a b =
        if a < m ∧ b < n then min (d a b) (d a k + d k b) else d a b := by
  intro m
  induction m with
  | zero =>
    intro a b
    simp
  | succ m ih =>
    intro a b
    have hstep : (List.range (m + 1)).foldl (fun d i => fwInner k i n d) d =
        fwInner k m n ((List.range m).foldl (fun d i => fwInner k i n d) d) := by
      rw [List.range_succ, List.foldl_append]
      rfl
    rw [hstep, fwInner_spec]
    have hgmb : ((List.range m).foldl (fun d i => fwInner k i n d) d) m b =
        d m b := by
      rw [ih]
      rw [if_neg (fun hcon => lt_irrefl m hcon.1)]
    have hgmk : ((List.range m).foldl (fun d i => fwInner k i n d) d) m k =
        d m k := by
      rw [ih]
      rw [if_neg (fun hcon => lt_irrefl m hcon.1)]
    have hgkb : ((List.range m).foldl (fun d i => fwInner k i n d) d) k b =
        d k b := by
      rw [ih]
      by_cases h : k < m ∧ b < n
      · rw [if_pos h]
        exact min_eq_left (self_le_add_left _ _)
      · rw [if_neg h]
    by_cases hab : a = m ∧ b < n
    · obtain ⟨ha, hb⟩ := hab
      subst ha
      rw [if_pos ⟨rfl, hb⟩, hgmb, hgmk, hgkb]
      rw [if_pos ⟨Nat.lt_succ_self a, hb⟩]
    · rw [if_neg hab, ih]
      by_cases h2 : a < m ∧ b < n
      · rw [if_pos h2, if_pos ⟨Nat.lt_succ_of_lt h2.1, h2.2⟩]
      · rw [if_neg h2, if_neg ?_]
        rintro ⟨ha1, hb⟩
        rcases Nat.lt_succ_iff_lt_or_eq.mp ha1 with ha | ha
        · exact h2 ⟨ha, hb⟩
        · exact hab ⟨ha, hb⟩

lemma fwPhase_spec (k n : Nat) (d : Mat) (a b : Nat) :
    fwPhase k n d a b =
      if a < n ∧ b < n then min (d a b) (d a k + d k b) else d a b :=
  fwPhase_rows k n d n a b

lemma fwIter_fold (n : Nat) (A : Mat) :
    ∀ m, (List.range m).foldl (fun d k => fwPhase k n d) A = fwIter n A m := by
  intro m
  induction m with
  | zero => rfl
  | succ m ih =>
    rw [List.range_succ, List.foldl_append]
    show fwPhase m n ((List.range m).foldl (fun d k => fwPhase k n d) A) = _
    rw [ih]
    rfl

lemma floyd_warshall_eq_fwIter (es : List ((Nat × Nat) × ℕ∞)) (n : Nat) :
    floyd_warshall es n = fwIter n (fwInit n es) n :=
  fwIter_fold n (fwInit n es) n

lemma fwIter_succ_spec (n : Nat) (A : Mat) (m a b : Nat) :
    fwIter n A (m + 1) a b =
      if a < n ∧ b < n then
        min (fwIter n A m a b) (fwIter n A m a m + fwIter n A m m b)
      else fwIter n A m a b :=
  fwPhase_spec m n (fwIter n A m) a b

lemma fwIter_succ_le (n : Nat) (A : Mat) (m a b : Nat) :
    fwIter n A (m + 1) a b ≤ fwIter n A m a b := by
  rw [fwIter_succ_spec]
  by_cases h : a < n ∧ b < n
  · rw [if_pos h]
    exact min_le_left _ _
  · rw [if_neg h]

lemma fwIter_le_A (n : Nat) (A : Mat) :
    ∀ (m a b : Nat), fwIter n A m a b ≤ A a b := by
  intro m
  induction m with
  | zero => intro a b; exact le_refl _
  | succ m ih =>
    intro a b
    exact le_trans (fwIter_succ_le n A m a b) (ih a b)

lemma walkCost_append (A : Mat) :
    ∀ (p : List Nat) (i v : Nat) (q : List Nat) (j : Nat),
      walkCost A i (p ++ v :: q) j = walkCost A i p v + walkCost A v q j := by
  intro p
  induction p with
  | nil =>
    intro i v q j
    rfl
  | cons w p' ih =>
    intro i v q j
    show A i w + walkCost A w (p' ++ v :: q) j = (A i w + walkCost A w p' v) + _
    rw [ih, add_assoc]

lemma fwIter_one_step (n : Nat) (A : Mat) :
    ∀ (m : Nat), m ≤ n → ∀ (i v j : Nat), i < n → j < n → v < m →
      fwIter n A m i j ≤ A i v + fwIter n A m v j := by
  intro m
  induction m with
  | zero =>
    intro _ i v j _ _ hv
    exact absurd hv (Nat.not_lt_zero v)
  | succ m ih =>
    intro hmn i v j hi hj hvm
    have hmn' : m ≤ n := Nat.le_of_succ_le hmn
    have hmltn : m < n := Nat.lt_of_succ_le hmn
    rcases Nat.lt_succ_iff_lt_or_eq.mp hvm with hvm' | hveq
    · have hvn : v < n := lt_trans hvm' hmltn
      rw [fwIter_succ_spec n A m i j, if_pos ⟨hi, hj⟩]
      rw [fwIter_succ_spec n A m v j, if_pos ⟨hvn, hj⟩]
      rcases min_cases (fwIter n A m v j)
          (fwIter n A m v m + fwIter n A m m j) with ⟨hmin, hle⟩ | ⟨hmin, hle⟩
      · rw [hmin]
        exact le_trans (min_le_left _ _) (ih hmn' i v j hi hj hvm')
      · rw [hmin]
        calc min (fwIter n A m i j) (fwIter n A m i m + fwIter n A m m j)
            ≤ fwIter n A m i m + fwIter n A m m j := min_le_right _ _
          _ ≤ (A i v + fwIter n A m v m) + fwIter n A m m j :=
            add_le_add_right (ih hmn' i v m hi hmltn hvm') _
          _ = A i v + (fwIter n A m v m + fwIter n A m m j) := add_assoc _ _ _
    · rw [hveq]
      rw [fwIter_succ_spec n A m i j, if_pos ⟨hi, hj⟩]
      rw [fwIter_succ_spec n A m m j, if_pos ⟨hmltn, hj⟩]
      rw [min_eq_left
        (self_le_add_left (fwIter n A m m j) (fwIter n A m m m))]
      calc min (fwIter n A m i j) (fwIter n A m i m + fwIter n A m m j)
          ≤ fwIter n A m i m + fwIter n A m m j := min_le_right _ _
        _ ≤ A i m + fwIter n A m m j :=
          add_le_add_right (fwIter_le_A n A m i m) _

lemma fwIter_le_walkCost (n : Nat) (A : Mat) (m : Nat) (hmn : m ≤ n) :
    ∀ (p : List Nat) (i j : Nat), i < n → j < n → (∀ u ∈ p, u < m) →
      fwIter n A m i j ≤ walkCost A i p j := by
  intro p
  induction p with
  | nil =>
    intro i j _ _ _
    exact fwIter_le_A n A m i j
  | cons v q ih =>
    intro i j hi hj hp
    have hv : v < m := hp v (List.mem_cons_self _ _)
    have hvn : v < n := lt_of_lt_of_le hv hmn
    show fwIter n A m i j ≤ A i v + walkCost A v q j
    calc fwIter n A m i j ≤ A i v + fwIter n A m v j :=
        fwIter_one_step n A m hmn i v j hi hj hv
      _ ≤ A i v + walkCost A v q j :=
        add_le_add_left
          (ih v j hvn hj (fun u hu => hp u (List.mem_cons_of_mem _ hu))) _

lemma fwIter_attained (n : Nat) (A : Mat) :
    ∀ (m : Nat), m ≤ n → ∀ (i j : Nat), i < n → j < n →
      ∃ p, (∀ u ∈ p, u < m) ∧ walkCost A i p j = fwIter n A m i j := by
  intro m
  induction m with
  | zero =>
    intro _ i j _ _
    exact ⟨[], by simp, rfl⟩
  | succ m ih =>
    intro hmn i j hi hj
    have hmn' : m ≤ n := Nat.le_of_succ_le hmn
    have hmltn : m < n := Nat.lt_of_succ_le hmn
    rcases le_total (fwIter n A m i j)
        (fwIter n A m i m + fwIter n A m m j) with hxy | hyx
    · obtain ⟨p, hp, hcost⟩ := ih hmn' i j hi hj
      refine ⟨p, fun u hu => Nat.lt_succ_of_lt (hp u hu), ?_⟩
      rw [hcost, fwIter_succ_spec n A m i j, if_pos ⟨hi, hj⟩,
        min_eq_left hxy]
    · obtain ⟨p1, hp1, hc1⟩ := ih hmn' i m hi hmltn
      obtain ⟨p2, hp2, hc2⟩ := ih hmn' m j hmltn hj
      refine ⟨p1 ++ m :: p2, ?_, ?_⟩
      · intro u hu
        rcases List.mem_append.mp hu with hu1 | hu2
        · exact Nat.lt_succ_of_lt (hp1 u hu1)
        · rcases List.mem_cons.mp hu2 with hum | hu2'
          · rw [hum]
            exact Nat.lt_succ_self m
          · exact Nat.lt_succ_of_lt (hp2 u hu2')
      · rw [walkCost_append, hc1, hc2, fwIter_succ_spec n A m i j,
          if_pos ⟨hi, hj⟩, min_eq_right hyx]

lemma fwInit_diag (n : Nat) (es : List ((Nat × Nat) × ℕ∞))
    (hloop : ∀ e ∈ es, e.1.1 ≠ e.1.2) :
    ∀ i, fwInit n es i i = 0 := by
  have haux : ∀ (l : List ((Nat × Nat) × ℕ∞)) (d : Mat),
      (∀ i, d i i = 0) → (∀ e ∈ l, e.1.1 ≠ e.1.2) →
      ∀ i, (l.foldl (fun d e => setEdge d e.1.1 e.1.2 e.2) d) i i = 0 := by
    intro l
    induction l with
    | nil => intro d hd _ i; exact hd i
    | cons e t ih =>
      intro d hd hl i
      refine ih (setEdge d e.1.1 e.1.2 e.2) (fun a => ?_)
        (fun f hf => hl f (List.mem_cons_of_mem _ hf)) i
      unfold setEdge
      rw [if_neg ?_]
      · exact hd a
      · rintro (⟨h1, h2⟩ | ⟨h1, h2⟩)
        · exact hl e (List.mem_cons_self _ _) (h1 ▸ h2 ▸ rfl)
        · exact hl e (List.mem_cons_self _ _) (h2 ▸ h1 ▸ rfl)
  exact haux es (fun i j => if i = j then 0 else ⊤) (fun i => by simp) hloop

lemma fwIter_diag (n : Nat) (A : Mat) (hA : ∀ i, A i i = 0) :
    ∀ m i, fwIter n A m i i = 0 := by
  intro m
  induction m with
  | zero => exact hA
  | succ m ih =>
    intro i
    rw [fwIter_succ_spec]
    by_cases h : i < n ∧ i < n
    · rw [if_pos h, ih i]
      exact min_eq_left (zero_le _)
    · rw [if_neg h]
      exact ih i

lemma fwInit_symm (n : Nat) (es : List ((Nat × Nat) × ℕ∞)) :
    ∀ a b, fwInit n es a b = fwInit n es b a := by
  have haux : ∀ (l : List ((Nat × Nat) × ℕ∞)) (d : Mat),
      (∀ a b, d a b = d b a) →
      ∀ a b, (l.foldl (fun d e => setEdge d e.1.1 e.1.2 e.2) d) a b =
        (l.foldl (fun d e => setEdge d e.1.1 e.1.2 e.2) d) b a := by
    intro l
    induction l with
    | nil => intro d hd; exact hd
    | cons e t ih =>
      intro d hd
      refine ih (setEdge d e.1.1 e.1.2 e.2) (fun a b => ?_)
      unfold setEdge
      by_cases h : (a = e.1.1 ∧ b = e.1.2) ∨ (a = e.1.2 ∧ b = e.1.1)
      · rw [if_pos h, if_pos ?_]
        rcases h with ⟨h1, h2⟩ | ⟨h1, h2⟩
        · exact Or.inr ⟨h2, h1⟩
        · exact Or.inl ⟨h2, h1⟩
      · rw [if_neg h, if_neg ?_]
        · exact hd a b
        · rintro (⟨h1, h2⟩ | ⟨h1, h2⟩)
          · exact h (Or.inr ⟨h2, h1⟩)
          · exact h (Or.inl ⟨h2, h1⟩)
  intro a b
  refine haux es (fun i j => if i = j then 0 else ⊤) (fun i j => ?_) a b
  show (if i = j then (0 : ℕ∞) else ⊤) = (if j = i then (0 : ℕ∞) else ⊤)
  by_cases h : i = j
  · rw [if_pos h, if_pos h.symm]
  · rw [if_neg h, if_neg (fun hc => h hc.symm)]

lemma fwIter_symm (n : Nat) (A : Mat) (hA : ∀ a b, A a b = A b a) :
    ∀ m a b, fwIter n A m a b = fwIter n A m b a := by
  intro m
  induction m with
  | zero => exact hA
  | succ m ih =>
    intro a b
    rw [fwIter_succ_spec, fwIter_succ_spec]
    by_cases h : a < n ∧ b < n
    · rw [if_pos h, if_pos ⟨h.2, h.1⟩]
      rw [ih a b, ih a m, ih m b, add_comm]
    · rw [if_neg h, if_neg (fun hc => h ⟨hc.2, hc.1⟩)]
      exact ih a b

/-- C2 (amended): for every node count `n` and every edge set with
non-negative weights whose endpoints lie in range and which contains no
self-loop edge, the matrix returned by `floyd_warshall` has a zero diagonal,
is symmetric, satisfies the triangle inequality, and at every in-range pair
`(i, j)` equals the least total weight of any walk from `i` to `j` over the
program's adjacency (the initial matrix), which is `⊤` exactly when no path
exists.  (Without the no-self-loop restriction the zero-diagonal clause is
false: see the counterexample.) -/
theorem floyd_warshall_correct (es : List ((Nat × Nat) × ℕ∞)) (n : Nat)
    (_hval : ∀ e ∈ es, e.1.1 < n ∧ e.1.2 < n)
    (hloop : ∀ e ∈ es, e.1.1 ≠ e.1.2) :
    ∀ i j, i < n → j < n →
      floyd_warshall es n i i = 0 ∧
      floyd_warshall es n i j = floyd_warshall es n j i ∧
      (∀ l, l < n → floyd_warshall es n i j ≤
        floyd_warshall es n i l + floyd_warshall es n l j) ∧
      floyd_warshall es n i j =
        sInf {c | ∃ p, (∀ u ∈ p, u < n) ∧
          walkCost (fwInit n es) i p j = c} := by
  intro i j hi hj
  rw [floyd_warshall_eq_fwIter]
  refine ⟨fwIter_diag n _ (fwInit_diag n es hloop) n i,
    fwIter_symm n _ (fwInit_symm n es) n i j, ?_, ?_⟩
  · intro l hl
    obtain ⟨p1, hp1, hc1⟩ :=
      fwIter_attained n (fwInit n es) n (le_refl n) i l hi hl
    obtain ⟨p2, hp2, hc2⟩ :=
      fwIter_attained n (fwInit n es) n (le_refl n) l j hl hj
    have hmem : ∀ u ∈ p1 ++ l :: p2, u < n := by
      intro u hu
      rcases List.mem_append.mp hu with hu1 | hu2
      · exact hp1 u hu1
      · rcases List.mem_cons.mp hu2 with hul | hu2'
        · rw [hul]; exact hl
        · exact hp2 u hu2'
    calc fwIter n (fwInit n es) n i j
        ≤ walkCost (fwInit n es) i (p1 ++ l :: p2) j :=
          fwIter_le_walkCost n (fwInit n es) n (le_refl n)
            (p1 ++ l :: p2) i j hi hj hmem
      _ = walkCost (fwInit n es) i p1 l + walkCost (fwInit n es) l p2 j :=
          walkCost_append (fwInit n es) p1 i l p2 j
      _ = fwIter n (fwInit n es) n i l + fwIter n (fwInit n es) n l j := by
          rw [hc1, hc2]
  · apply le_antisymm
    · apply le_sInf
      rintro c ⟨p, hp, hcost⟩
      rw [← hcost]
      exact fwIter_le_walkCost n (fwInit n es) n (le_refl n) p i j hi hj hp
    · obtain ⟨p, hp, hcost⟩ :=
        fwIter_attained n (fwInit n es) n (le_refl n) i j hi hj
      exact sInf_le ⟨p, hp, hcost⟩

/-- Witness for C2 at the end-to-end fixture's edge set (no self-loops, all
endpoints in range): the diagonal entry at node 0 is 0. -/
theorem floyd_warshall_correct_witness :
    (∀ e ∈ aristasC1, e.1.1 < 4 ∧ e.1.2 < 4) ∧
    (∀ e ∈ aristasC1, e.1.1 ≠ e.1.2) ∧
    (0 : Nat) < 4 ∧ (2 : Nat) < 4 ∧
    floyd_warshall aristasC1 4 0 0 = 0 :=
  ⟨by decide, by decide, by decide, by decide,
    (floyd_warshall_correct aristasC1 4 (by decide) (by decide) 0 2
      (by decide) (by decide)).1⟩

end TPO
